import Mathlib

/-
Verification of the Device Connectivity & Telemetry Ingestion Core of the
Delta_Web repository.

The JavaScript services under `Backend/Services` (plcService, telemetry
service, device service, MQTT broker) are shallowly embedded below: pure
functions become Lean functions, the stateful connection registry and the
RPC correlation logic become explicit step functions on state types, and
MongoDB pipelines are modelled as list transformations.  JavaScript numbers
are modelled as exact rationals; the 32-bit wrap-around of the bitwise
operators is made explicit with `% 2^32`.
-/

namespace DeltaWeb

/-! ## Register codec

`processRegisterValue` / `prepareValueForWrite` from the PLC service
(`authService.js` lines 561-609 of the flattened sources). -/

/-- A JavaScript value produced by the codec: a boolean or a number.
Numbers are modelled as exact rationals. -/
inductive JsValue where
  | bool (b : Bool)
  | num (q : ℚ)
deriving DecidableEq

/-- Register descriptor as read from the device configuration.  `scaling`
is `none` when the JS property is absent. -/
structure Register where
  dataType : String
  scaling : Option ℚ := none
deriving DecidableEq

/-- JS `register.scaling || 1`: an absent scaling, and the falsy number 0,
both fall back to 1. -/
def Register.effScaling (r : Register) : ℚ :=
  match r.scaling with
  | none => 1
  | some s => if s = 0 then 1 else s

/-- ECMAScript ToInt32 applied to an unsigned word: reduce mod 2^32 and
reinterpret the high half as negative. -/
def jsToInt32 (n : ℕ) : ℤ :=
  if n % 4294967296 < 2147483648 then ((n % 4294967296 : ℕ) : ℤ)
  else ((n % 4294967296 : ℕ) : ℤ) - 4294967296

/-- JS `a & b` for nonnegative operands: both sides are wrapped to 32 bits,
the bitwise AND is taken, and the result is reinterpreted as int32. -/
def jsAnd (a b : ℕ) : ℤ :=
  jsToInt32 ((a % 4294967296) &&& (b % 4294967296))

/-- JS `a | b` for nonnegative operands. -/
def jsOr (a b : ℕ) : ℤ :=
  jsToInt32 ((a % 4294967296) ||| (b % 4294967296))

/-- `processRegisterValue(rawValue, register)`: decode a raw wire word into
an engineering value.  `rawValue` is the (unsigned) word returned by the
modbus read.  The `int16` branch is the literal translation of
`((rawValue & 0x8000) ? (0xFFFF0000 | rawValue) : rawValue) * scaling`. -/
def processRegisterValue (rawValue : ℕ) (register : Register) : JsValue :=
  let scaling := register.effScaling
  match register.dataType with
  | "boolean" => .bool (rawValue != 0)
  | "int16" =>
      .num ((if jsAnd rawValue 32768 ≠ 0
             then ((jsOr 4294901760 rawValue : ℤ) : ℚ)
             else (rawValue : ℚ)) * scaling)
  | "uint16" => .num ((rawValue : ℚ) * scaling)
  | "int32" => .num ((rawValue : ℚ) * scaling)
  | "uint32" => .num ((rawValue : ℚ) * scaling)
  | "float" => .num ((rawValue : ℚ) * scaling)
  | _ => .num ((rawValue : ℚ) * scaling)

/-- JS `Math.round`: round half toward positive infinity. -/
def jsRound (q : ℚ) : ℤ := ⌊q + 1/2⌋

/-- `prepareValueForWrite(value, register)`: encode an engineering value
for the wire by dividing by the scaling and rounding. -/
def prepareValueForWrite (value : ℚ) (register : Register) : JsValue :=
  let scaling := register.effScaling
  let scaledValue := value / scaling
  match register.dataType with
  | "boolean" => .bool (value != 0)
  | "int16" => .num ((jsRound scaledValue : ℤ) : ℚ)
  | "uint16" => .num ((jsRound scaledValue : ℤ) : ℚ)
  | "int32" => .num ((jsRound scaledValue : ℤ) : ℚ)
  | "uint32" => .num ((jsRound scaledValue : ℤ) : ℚ)
  | "float" => .num ((jsRound scaledValue : ℤ) : ℚ)
  | _ => .num ((jsRound scaledValue : ℤ) : ℚ)

/-! ### Bit-level helper lemmas for the int16 branch -/

/-- For a 16-bit word, OR-ing in the mask `0xFFFF0000` is plain addition:
the two operands occupy disjoint bit ranges. -/
theorem lor_mask_eq_add {r : ℕ} (h : r < 65536) :
    4294901760 ||| r = 4294901760 + r := by
  apply Nat.eq_of_testBit_eq
  intro j
  rcases Nat.lt_or_ge j 32 with hj | hj
  · interval_cases j <;>
      · rw [Nat.testBit_or]
        simp only [Nat.testBit_to_div_mod]
        rw [← Bool.decide_or, decide_eq_decide]
        norm_num
        all_goals omega
  · have h32 : (4294967296 : ℕ) ≤ 2 ^ j := by
      calc (4294967296 : ℕ) = 2 ^ 32 := by norm_num
      _ ≤ 2 ^ j := Nat.pow_le_pow_right (by norm_num) hj
    rw [Nat.testBit_or]
    rw [Nat.testBit_lt_two_pow (by omega), Nat.testBit_lt_two_pow (by omega),
      Nat.testBit_lt_two_pow (by omega)]
    rfl

/-- For a 16-bit word, the JS test `rawValue & 0x8000` is the high-bit
test. -/
theorem jsAnd_high_bit {r : ℕ} (h : r < 65536) :
    jsAnd r 32768 = if 32768 ≤ r then 32768 else 0 := by
  have hr : r % 4294967296 = r := Nat.mod_eq_of_lt (by omega)
  have hm : (32768 : ℕ) % 4294967296 = 32768 := by norm_num
  have hand : r &&& 32768 = (Nat.testBit r 15).toNat * 32768 := by
    have h2 := Nat.and_two_pow r 15
    norm_num at h2
    exact h2
  have htb : Nat.testBit r 15 = decide (32768 ≤ r) := by
    rw [Nat.testBit_to_div_mod]
    rw [decide_eq_decide]
    omega
  rw [jsAnd, hr, hm, hand, htb]
  by_cases hc : 32768 ≤ r <;> simp [hc, jsToInt32]

/-- The JS test `rawValue & 0x8000` is nonzero exactly when the high bit of
the 16-bit word is set. -/
theorem jsAnd_mask_ne_zero {r : ℕ} (h : r < 65536) :
    jsAnd r 32768 ≠ 0 ↔ 32768 ≤ r := by
  rw [jsAnd_high_bit h]
  by_cases hc : 32768 ≤ r <;> simp [hc]

/-- The JS expression `0xFFFF0000 | r` on a 16-bit word is two's-complement
sign extension: it yields `r - 2^16` as an int32. -/
theorem jsOr_mask_eq_sub {r : ℕ} (h : r < 65536) :
    jsOr 4294901760 r = (r : ℤ) - 65536 := by
  have hr : r % 4294967296 = r := Nat.mod_eq_of_lt (by omega)
  have hm : (4294901760 : ℕ) % 4294967296 = 4294901760 := by norm_num
  rw [jsOr, hr, hm, lor_mask_eq_add h, jsToInt32]
  have hlt : 4294901760 + r < 4294967296 := by omega
  have hge : ¬ ((4294901760 + r) % 4294967296 < 2147483648) := by
    rw [Nat.mod_eq_of_lt hlt]; omega
  rw [if_neg hge, Nat.mod_eq_of_lt hlt]
  push_cast
  ring

/-- Decoding an `int16` register sign-extends the 16-bit word before
scaling. -/
theorem processRegisterValue_int16 (raw : ℕ) (reg : Register)
    (hraw : raw < 65536) (hdt : reg.dataType = "int16") :
    processRegisterValue raw reg =
      .num ((if 32768 ≤ raw then (raw : ℚ) - 65536 else (raw : ℚ)) *
        reg.effScaling) := by
  have h1 : processRegisterValue raw reg =
      .num ((if jsAnd raw 32768 ≠ 0
             then ((jsOr 4294901760 raw : ℤ) : ℚ)
             else (raw : ℚ)) * reg.effScaling) := by
    rw [processRegisterValue, hdt]
    rfl
  rw [h1]
  by_cases hc : 32768 ≤ raw
  · rw [if_pos ((jsAnd_mask_ne_zero hraw).mpr hc), if_pos hc,
      jsOr_mask_eq_sub hraw]
    congr 1
    push_cast
    ring
  · rw [if_neg (fun hn => hc ((jsAnd_mask_ne_zero hraw).mp hn)), if_neg hc]

/-- The effective scaling is never zero (`register.scaling || 1`). -/
theorem Register.effScaling_ne_zero (r : Register) : r.effScaling ≠ 0 := by
  rw [Register.effScaling]
  match r.scaling with
  | none => norm_num
  | some s =>
      by_cases hs : s = 0
      · simp [hs]
      · simp [hs]

/-- Decoding a `uint16` register is plain multiplication by the scaling. -/
theorem processRegisterValue_uint16 (raw : ℕ) (reg : Register)
    (hdt : reg.dataType = "uint16") :
    processRegisterValue raw reg = .num ((raw : ℚ) * reg.effScaling) := by
  rw [processRegisterValue, hdt]
  rfl

/-- Encoding through a `uint16` register divides by the scaling and
rounds. -/
theorem prepareValueForWrite_uint16 (v : ℚ) (reg : Register)
    (hdt : reg.dataType = "uint16") :
    prepareValueForWrite v reg = .num ((jsRound (v / reg.effScaling) : ℤ) : ℚ) := by
  rw [prepareValueForWrite, hdt]
  rfl

/-- Encoding through an `int16` register divides by the scaling and
rounds. -/
theorem prepareValueForWrite_int16 (v : ℚ) (reg : Register)
    (hdt : reg.dataType = "int16") :
    prepareValueForWrite v reg = .num ((jsRound (v / reg.effScaling) : ℤ) : ℚ) := by
  rw [prepareValueForWrite, hdt]
  rfl

/-- `Math.round` is the identity on integers. -/
theorem jsRound_intCast (z : ℤ) : jsRound ((z : ℚ)) = z := by
  rw [jsRound]
  have h : ((z : ℚ)) + 1 / 2 = ((z : ℤ) : ℚ) + 1 / 2 := by norm_num
  rw [h, Int.floor_int_add]
  norm_num

/-- The numeric content of a decoded value (JS number coercion). -/
def JsValue.toNum : JsValue → ℚ
  | .bool b => if b then 1 else 0
  | .num q => q

/-- `Math.round` is the identity on natural numbers. -/
theorem jsRound_natCast (n : ℕ) : jsRound ((n : ℕ) : ℚ) = (n : ℤ) := by
  have h := jsRound_intCast (n : ℤ)
  push_cast at h
  exact h

/-- **C2.** Register decode with dataType `int16` treats the raw 16-bit
word as two's-complement: the decoded engineering value is the
sign-extended word multiplied by the scaling (sign extension happens before
scaling); in particular raw `0xFFFF` with scaling 1 decodes to `-1`, and
decode with dataType `uint16` of raw 100 with scaling `0.1` yields `10`. -/
theorem registerDecode_int16_twos_complement :
    (∀ (raw : ℕ) (reg : Register), raw < 65536 → reg.dataType = "int16" →
      processRegisterValue raw reg =
        .num ((if 32768 ≤ raw then (raw : ℚ) - 65536 else (raw : ℚ)) *
          reg.effScaling)) ∧
    processRegisterValue 65535 { dataType := "int16", scaling := some 1 } =
      .num (-1) ∧
    processRegisterValue 100 { dataType := "uint16", scaling := some (1/10) } =
      .num 10 := by
  refine ⟨fun raw reg h1 h2 => processRegisterValue_int16 raw reg h1 h2, ?_, ?_⟩
  · rw [processRegisterValue_int16 65535 _ (by norm_num) rfl]
    norm_num [Register.effScaling]
  · norm_num [processRegisterValue, Register.effScaling]

/-- **C2 witness.** The general sign-extension statement instantiated at
raw `0xFFFF` on an `int16` register with scaling 1. -/
theorem registerDecode_int16_twos_complement_witness :
    processRegisterValue 65535 { dataType := "int16", scaling := some 1 } =
      .num ((if 32768 ≤ (65535 : ℕ) then ((65535 : ℕ) : ℚ) - 65536
             else ((65535 : ℕ) : ℚ)) *
        Register.effScaling { dataType := "int16", scaling := some 1 }) :=
  registerDecode_int16_twos_complement.1 65535 _ (by norm_num) rfl

/-- **C7 counterexample.** Decoding with the unsupported dataType
`undefinedType` returns the numeric value `raw * scaling` (here 100): the
decoder falls through to its default branch and has no error outcome at
all, contradicting the claim that an UnsupportedType error is produced. -/
theorem registerDecode_unsupported_counterexample :
    processRegisterValue 100 { dataType := "undefinedType", scaling := some 1 } =
      .num 100 := by
  norm_num [processRegisterValue, Register.effScaling]
  rfl

/-- **C7 (amended).** Register decode with a dataType outside
{boolean, int16, uint16, int32, uint32, float} falls through to the default
branch and returns the scaled raw value as a number; no UnsupportedType
error is raised. -/
theorem registerDecode_unsupported_default (raw : ℕ) (reg : Register)
    (h : reg.dataType ∉
      (["boolean", "int16", "uint16", "int32", "uint32", "float"] :
        List String)) :
    processRegisterValue raw reg = .num ((raw : ℚ) * reg.effScaling) := by
  rw [processRegisterValue]
  split
  all_goals simp_all

/-- **C7 witness.** The default-branch behaviour at the concrete
unsupported dataType `undefinedType`. -/
theorem registerDecode_unsupported_default_witness :
    processRegisterValue 100 { dataType := "undefinedType", scaling := some 1 } =
      .num ((100 : ℚ) *
        Register.effScaling { dataType := "undefinedType", scaling := some 1 }) :=
  registerDecode_unsupported_default 100 _ (by decide)

/-- **C8 counterexample.** For an int16 register with scaling 1 and raw
word `0xFFFF`, decode yields `-1`, and re-encoding `-1` yields `-1` again:
the encoder never maps a negative engineering value back to the unsigned
wire word 65535, so encode is not the inverse of decode on high-bit int16
words. -/
theorem encodeDecode_int16_counterexample :
    processRegisterValue 65535 { dataType := "int16", scaling := some 1 } =
      .num (-1) ∧
    prepareValueForWrite (-1) { dataType := "int16", scaling := some 1 } =
      .num (-1) ∧
    JsValue.num (-1) ≠ .num 65535 := by
  refine ⟨?_, ?_, by simp; norm_num⟩
  · rw [processRegisterValue_int16 65535 _ (by norm_num) rfl]
    norm_num [Register.effScaling]
  · norm_num [prepareValueForWrite, Register.effScaling, jsRound]

/-- **C8 (amended).** Encode divides by the scaling and rounds, and is the
inverse of decode for every scaling on `uint16` words and on `int16` words
below `0x8000`; for `int16` words with the high bit set, encoding the
decoded value yields the signed value `raw - 65536`, not the original
unsigned wire word. -/
theorem encodeDecode_roundtrip (raw : ℕ) (reg : Register)
    (hraw : raw < 65536) :
    (reg.dataType = "uint16" →
      prepareValueForWrite (processRegisterValue raw reg).toNum reg =
        .num ((raw : ℕ) : ℚ)) ∧
    (reg.dataType = "int16" → raw < 32768 →
      prepareValueForWrite (processRegisterValue raw reg).toNum reg =
        .num ((raw : ℕ) : ℚ)) ∧
    (reg.dataType = "int16" → 32768 ≤ raw →
      prepareValueForWrite (processRegisterValue raw reg).toNum reg =
        .num ((raw : ℚ) - 65536)) := by
  have hs := reg.effScaling_ne_zero
  refine ⟨fun hdt => ?_, fun hdt hlow => ?_, fun hdt hhigh => ?_⟩
  · rw [processRegisterValue_uint16 raw reg hdt, JsValue.toNum,
      prepareValueForWrite_uint16 _ reg hdt, mul_div_cancel_right₀ _ hs,
      jsRound_natCast]
    norm_num
  · rw [processRegisterValue_int16 raw reg hraw hdt,
      if_neg (by omega : ¬ 32768 ≤ raw), JsValue.toNum,
      prepareValueForWrite_int16 _ reg hdt, mul_div_cancel_right₀ _ hs,
      jsRound_natCast]
    norm_num
  · rw [processRegisterValue_int16 raw reg hraw hdt, if_pos hhigh,
      JsValue.toNum, prepareValueForWrite_int16 _ reg hdt,
      mul_div_cancel_right₀ _ hs]
    have hcast : (raw : ℚ) - 65536 = (((raw : ℤ) - 65536 : ℤ) : ℚ) := by
      push_cast
      ring
    rw [hcast, jsRound_intCast]

/-- **C8 amended witness.** The uint16 round trip at raw 100 with scaling
`0.1`. -/
theorem encodeDecode_roundtrip_witness :
    prepareValueForWrite
        (processRegisterValue 100
          { dataType := "uint16", scaling := some (1/10) }).toNum
        { dataType := "uint16", scaling := some (1/10) } =
      .num ((100 : ℕ) : ℚ) :=
  (encodeDecode_roundtrip 100 _ (by norm_num)).1 rfl

/-! ## Telemetry ingestion (`TelemetryService.saveTelemetry`)

The device lookup collaborator (`Device.findById`) is modelled as a list of
device records searched by id; persistence (`telemetry.save()`) is modelled
by accumulating the saved rows in order.  The `metadata` field is carried
through unchanged by the source and plays no role in validation, so it is
not modelled.  The event fan-out after each save has no effect on what is
persisted or returned. -/

/-- A device record as far as ingestion is concerned. -/
structure Device where
  id : String
  active : Bool
deriving DecidableEq

/-- One telemetry item of a payload.  `type` is `none` when the property is
absent; `value` is `none` when the `value` key is absent (so that
`'value' in item` is false). -/
structure TelemetryItem where
  type : Option String := none
  value : Option ℚ := none
  timestamp : Option ℕ := none
deriving DecidableEq

/-- JS truthiness of the `type` property: absent, or the empty string, is
falsy. -/
def typeTruthy : Option String → Bool
  | none => false
  | some s => s != ""

/-- The per-item validation `item.type && ('value' in item)` (negation of
the rejection test `!item.type || !('value' in item)`). -/
def itemValid (it : TelemetryItem) : Bool :=
  typeTruthy it.type && it.value.isSome

/-- A persisted telemetry row. -/
structure SavedTelemetry where
  deviceId : String
  type : String
  value : ℚ
  timestamp : ℕ
deriving DecidableEq

/-- `item.timestamp || new Date()`: an absent timestamp, and the falsy
timestamp 0, are replaced by the current time `now`. -/
def itemTimestamp (now : ℕ) : Option ℕ → ℕ
  | none => now
  | some t => if t = 0 then now else t

/-- The row built from one valid item. -/
def mkSaved (deviceId : String) (now : ℕ) (it : TelemetryItem) :
    SavedTelemetry :=
  { deviceId := deviceId
    type := it.type.getD ""
    value := it.value.getD 0
    timestamp := itemTimestamp now it.timestamp }

/-- The payload of `saveTelemetry`: a batch (`data.values` is an array), a
single reading, or a non-object/array value (rejected up front). -/
inductive Payload where
  | batch (values : List TelemetryItem)
  | single (item : TelemetryItem)
  | nonObject
deriving DecidableEq

/-- What a `saveTelemetry` call returned (or threw). -/
inductive SaveResult where
  | ok (rows : List SavedTelemetry)
  | err (msg : String)
deriving DecidableEq

/-- Observable outcome of a `saveTelemetry` call: the rows actually written
to storage (in order), the returned value or thrown error, and the warnings
logged. -/
structure SaveOutcome where
  persisted : List SavedTelemetry
  result : SaveResult
  warnings : List String
deriving DecidableEq

/-- The batch loop of `saveTelemetry`: each item is validated and persisted
in order; the first invalid item throws, ending the loop, and the rows
already saved stay saved. -/
def saveBatch (deviceId : String) (now : ℕ) :
    List TelemetryItem → List SavedTelemetry × Option String
  | [] => ([], none)
  | it :: rest =>
      if itemValid it then
        let r := saveBatch deviceId now rest
        (mkSaved deviceId now it :: r.1, r.2)
      else ([], some "Each telemetry item must contain type and value")

/-- `TelemetryService.saveTelemetry(deviceId, data)`: look the device up,
reject if missing, warn (but continue) if inactive, then persist the
payload item by item. -/
def saveTelemetry (db : List Device) (deviceId : String) (now : ℕ)
    (data : Payload) : SaveOutcome :=
  match db.find? (fun d => d.id == deviceId) with
  | none =>
      { persisted := []
        result := .err "Device not found"
        warnings := [] }
  | some device =>
      let warnings :=
        if device.active then []
        else ["Telemetry received for inactive device"]
      match data with
      | .nonObject =>
          { persisted := []
            result := .err "Telemetry data must be an object with type and value"
            warnings := warnings }
      | .batch values =>
          let r := saveBatch deviceId now values
          { persisted := r.1
            result := match r.2 with
              | some e => .err e
              | none => .ok r.1
            warnings := warnings }
      | .single item =>
          if itemValid item then
            { persisted := [mkSaved deviceId now item]
              result := .ok [mkSaved deviceId now item]
              warnings := warnings }
          else
            { persisted := []
              result := .err "Telemetry must contain type and value"
              warnings := warnings }

/-- A batch consisting of a valid prefix, an invalid item, and a tail saves
exactly the prefix and then throws. -/
theorem saveBatch_prefix (deviceId : String) (now : ℕ)
    (pre : List TelemetryItem) (bad : TelemetryItem)
    (rest : List TelemetryItem)
    (hpre : ∀ it ∈ pre, itemValid it = true)
    (hbad : itemValid bad = false) :
    saveBatch deviceId now (pre ++ bad :: rest) =
      (pre.map (mkSaved deviceId now),
        some "Each telemetry item must contain type and value") := by
  induction pre with
  | nil =>
      simp [saveBatch, hbad]
  | cons it pre ih =>
      have hit : itemValid it = true := hpre it (by simp)
      have ih2 := ih (fun x hx => hpre x (by simp [hx]))
      simp [saveBatch, hit, ih2]

/-- **C1 counterexample.** In a batch of five items where item 3 lacks its
`value` key, only items 1 and 2 are persisted: the loop throws at item 3,
so items 4 and 5 are never reached — contrary to the claim that items
1, 2, 4 and 5 are all persisted. -/
theorem batchPartialSave_counterexample :
    (saveTelemetry [{ id := "dev1", active := true }] "dev1" 7
        (.batch [{ type := some "k1", value := some 1 },
                 { type := some "k2", value := some 2 },
                 { type := some "k3" },
                 { type := some "k4", value := some 4 },
                 { type := some "k5", value := some 5 }])).persisted =
      [mkSaved "dev1" 7 { type := some "k1", value := some 1 },
       mkSaved "dev1" 7 { type := some "k2", value := some 2 }] ∧
    (saveTelemetry [{ id := "dev1", active := true }] "dev1" 7
        (.batch [{ type := some "k1", value := some 1 },
                 { type := some "k2", value := some 2 },
                 { type := some "k3" },
                 { type := some "k4", value := some 4 },
                 { type := some "k5", value := some 5 }])).result =
      .err "Each telemetry item must contain type and value" ∧
    ¬ ∃ s ∈ (saveTelemetry [{ id := "dev1", active := true }] "dev1" 7
        (.batch [{ type := some "k1", value := some 1 },
                 { type := some "k2", value := some 2 },
                 { type := some "k3" },
                 { type := some "k4", value := some 4 },
                 { type := some "k5", value := some 5 }])).persisted,
      s.type = "k4" ∨ s.type = "k5" := by
  refine ⟨rfl, rfl, ?_⟩
  rintro ⟨s, hs, hty⟩
  have : s = mkSaved "dev1" 7 { type := some "k1", value := some 1 } ∨
      s = mkSaved "dev1" 7 { type := some "k2", value := some 2 } := by
    simpa [saveTelemetry, saveBatch, itemValid, typeTruthy] using hs
  rcases this with h | h <;> rw [h] at hty <;> simp [mkSaved] at hty

/-- **C1 (amended).** For any batch made of a valid prefix, an invalid
item, and an arbitrary tail, exactly the prefix rows are persisted (no
rollback), the call throws the per-item validation error, and nothing after
the invalid item is persisted. -/
theorem batchPartialSave_validPrefix (db : List Device) (deviceId : String)
    (device : Device) (now : ℕ) (pre : List TelemetryItem)
    (bad : TelemetryItem) (rest : List TelemetryItem)
    (hdev : db.find? (fun d => d.id == deviceId) = some device)
    (hpre : ∀ it ∈ pre, itemValid it = true)
    (hbad : itemValid bad = false) :
    (saveTelemetry db deviceId now (.batch (pre ++ bad :: rest))).persisted =
      pre.map (mkSaved deviceId now) ∧
    (saveTelemetry db deviceId now (.batch (pre ++ bad :: rest))).result =
      .err "Each telemetry item must contain type and value" := by
  have hb := saveBatch_prefix deviceId now pre bad rest hpre hbad
  constructor <;> simp [saveTelemetry, hdev, hb]

/-- **C1 witness.** The amended statement instantiated on the five-item
batch with item 3 invalid: items 1 and 2 are the persisted rows. -/
theorem batchPartialSave_validPrefix_witness :
    (saveTelemetry [{ id := "dev1", active := true }] "dev1" 7
        (.batch ([{ type := some "k1", value := some 1 },
                  { type := some "k2", value := some 2 }] ++
          { type := some "k3" } ::
            [{ type := some "k4", value := some 4 },
             { type := some "k5", value := some 5 }]))).persisted =
      ([{ type := some "k1", value := some 1 },
        { type := some "k2", value := some 2 }] :
          List TelemetryItem).map (mkSaved "dev1" 7) ∧
    (saveTelemetry [{ id := "dev1", active := true }] "dev1" 7
        (.batch ([{ type := some "k1", value := some 1 },
                  { type := some "k2", value := some 2 }] ++
          { type := some "k3" } ::
            [{ type := some "k4", value := some 4 },
             { type := some "k5", value := some 5 }]))).result =
      .err "Each telemetry item must contain type and value" :=
  batchPartialSave_validPrefix [{ id := "dev1", active := true }] "dev1"
    { id := "dev1", active := true } 7 _ _ _ rfl
    (by intro it hit; fin_cases hit <;> rfl) rfl

/-- **C9.** `saveTelemetry` checks device existence and active state before
accepting telemetry: a missing device is rejected with an error and nothing
is persisted, for any payload; a device that exists but is inactive only
logs a warning — a valid reading is still persisted and returned
(soft-fail). -/
theorem saveTelemetry_deviceCheck (db : List Device) (deviceId : String)
    (now : ℕ) (item : TelemetryItem) :
    (db.find? (fun d => d.id == deviceId) = none →
      ∀ data, saveTelemetry db deviceId now data =
        { persisted := [], result := .err "Device not found",
          warnings := [] }) ∧
    (∀ device, db.find? (fun d => d.id == deviceId) = some device →
      device.active = false → itemValid item = true →
      (saveTelemetry db deviceId now (.single item)).warnings =
        ["Telemetry received for inactive device"] ∧
      (saveTelemetry db deviceId now (.single item)).persisted =
        [mkSaved deviceId now item] ∧
      (saveTelemetry db deviceId now (.single item)).result =
        .ok [mkSaved deviceId now item]) := by
  constructor
  · intro h data
    simp [saveTelemetry, h]
  · intro device hdev hact hval
    refine ⟨?_, ?_, ?_⟩ <;> simp [saveTelemetry, hdev, hact, hval]

/-- **C9 witness.** The missing-device rejection on an empty directory, and
the inactive-device soft-fail on a concrete inactive device. -/
theorem saveTelemetry_deviceCheck_witness :
    saveTelemetry [] "dev1" 7
        (.single { type := some "temp", value := some 21 }) =
      { persisted := [], result := .err "Device not found",
        warnings := [] } ∧
    (saveTelemetry [{ id := "dev1", active := false }] "dev1" 7
        (.single { type := some "temp", value := some 21 })).warnings =
      ["Telemetry received for inactive device"] ∧
    (saveTelemetry [{ id := "dev1", active := false }] "dev1" 7
        (.single { type := some "temp", value := some 21 })).persisted =
      [mkSaved "dev1" 7 { type := some "temp", value := some 21 }] ∧
    (saveTelemetry [{ id := "dev1", active := false }] "dev1" 7
        (.single { type := some "temp", value := some 21 })).result =
      .ok [mkSaved "dev1" 7 { type := some "temp", value := some 21 }] :=
  ⟨(saveTelemetry_deviceCheck [] "dev1" 7
      { type := some "temp", value := some 21 }).1 rfl _,
   (saveTelemetry_deviceCheck [{ id := "dev1", active := false }] "dev1" 7
      { type := some "temp", value := some 21 }).2
     { id := "dev1", active := false } rfl rfl rfl⟩

/-! ## Device authentication (`DeviceService.authenticateDevice`) -/

/-- A device record as seen by the device directory. -/
structure DeviceRec where
  id : String
  accessToken : String
  active : Bool
deriving DecidableEq

/-- Result of a device authentication attempt. -/
inductive AuthResult where
  | ok (device : DeviceRec)
  | err (msg : String)
deriving DecidableEq

/-- `DeviceService.authenticateDevice(deviceId, accessToken)`: `findOne`
on id and token together, then reject inactive devices. -/
def authenticateDevice (db : List DeviceRec)
    (deviceId accessToken : String) : AuthResult :=
  match db.find? (fun d => d.id == deviceId && d.accessToken == accessToken) with
  | none => .err "Invalid device credentials"
  | some device =>
      if !device.active then .err "Device is inactive"
      else .ok device

/-- **C10.** Authentication rejects an inactive device even with correct
credentials: whenever the credential lookup finds a device whose active
flag is false, the result is the error message, and conversely any
successful authentication returns an active device. -/
theorem authenticateDevice_rejects_inactive (db : List DeviceRec)
    (deviceId accessToken : String) :
    (∀ device,
      db.find? (fun d => d.id == deviceId && d.accessToken == accessToken) =
          some device →
      device.active = false →
      authenticateDevice db deviceId accessToken =
        .err "Device is inactive") ∧
    (∀ device,
      authenticateDevice db deviceId accessToken = .ok device →
      device.active = true) := by
  constructor
  · intro device h hact
    simp [authenticateDevice, h, hact]
  · intro device h
    rw [authenticateDevice] at h
    cases hf : db.find?
        (fun d => d.id == deviceId && d.accessToken == accessToken) with
    | none => rw [hf] at h; cases h
    | some d =>
        rw [hf] at h
        by_cases hd : d.active
        · simp [hd] at h
          rw [← h]
          exact hd
        · simp [hd] at h

/-- **C10 witness.** A directory holding one inactive device with matching
credentials: authentication yields the inactive-device error. -/
theorem authenticateDevice_rejects_inactive_witness :
    authenticateDevice
        [{ id := "dev1", accessToken := "tok", active := false }]
        "dev1" "tok" = .err "Device is inactive" :=
  (authenticateDevice_rejects_inactive
      [{ id := "dev1", accessToken := "tok", active := false }]
      "dev1" "tok").1
    { id := "dev1", accessToken := "tok", active := false } rfl rfl

/-! ## Connection registry (plcService `activeConnections`)

The PLC service keeps live Modbus sessions in the module-level map
`activeConnections`.  Each `new ModbusRTU()` client is identified here by a
creation counter; `clients` records, for every client ever created, whether
it is currently open (`client.isOpen`).  Network success of `connectTCP` is
the `connectOk` parameter of the operations that connect. -/

/-- The map from device id to stored client, plus the population of created
clients. -/
structure PlcState where
  nextClient : ℕ
  clients : List (ℕ × Bool)
  activeConnections : List (String × ℕ)
deriving DecidableEq

/-- First binding for a device id (the `Map.get` of `activeConnections`). -/
def lookupDev : List (String × ℕ) → String → Option ℕ
  | [], _ => none
  | (k, v) :: t, d => if k = d then some v else lookupDev t d

/-- Open flag of a client (the `client.isOpen` of the stored client). -/
def clientState : List (ℕ × Bool) → ℕ → Option Bool
  | [], _ => none
  | (i, b) :: t, c => if i = c then some b else clientState t c

/-- Whether client `c` is currently open. -/
def isClientOpen (s : PlcState) (c : ℕ) : Bool :=
  (clientState s.clients c).getD false

/-- `client.close()`: mark a client closed. -/
def markClosed (cl : List (ℕ × Bool)) (c : ℕ) : List (ℕ × Bool) :=
  cl.map (fun p => if p.1 = c then (p.1, false) else p)

/-- `closeConnection(deviceId)`: if the device has a stored session, close
its client and delete the map entry; otherwise do nothing. -/
def closeConnection (s : PlcState) (deviceId : String) : PlcState :=
  match lookupDev s.activeConnections deviceId with
  | none => s
  | some c =>
      { s with
        clients := markClosed s.clients c
        activeConnections :=
          s.activeConnections.filter (fun p => p.1 != deviceId) }

/-- `initializeDevice(device)`: close any existing session for the device
first, create a fresh client, attempt to connect, and store the client in
the map only when the connection succeeded. -/
def initializeDevice (s : PlcState) (deviceId : String)
    (connectOk : Bool) : PlcState :=
  let s1 := if (lookupDev s.activeConnections deviceId).isSome
            then closeConnection s deviceId else s
  let cid := s1.nextClient
  let s2 := { s1 with
    nextClient := cid + 1
    clients := (cid, connectOk) :: s1.clients }
  if connectOk then
    { s2 with activeConnections := (deviceId, cid) :: s2.activeConnections }
  else s2

/-- `restartConnection(device)`: close, then initialize again. -/
def restartConnection (s : PlcState) (deviceId : String)
    (connectOk : Bool) : PlcState :=
  initializeDevice (closeConnection s deviceId) deviceId connectOk

/-- `getClient(deviceId)`: initialize when absent; reconnect when the
stored client is no longer open; otherwise only refresh `lastConnected`. -/
def getClient (s : PlcState) (deviceId : String)
    (connectOk : Bool) : PlcState :=
  match lookupDev s.activeConnections deviceId with
  | none => initializeDevice s deviceId connectOk
  | some c =>
      if isClientOpen s c then s
      else restartConnection s deviceId connectOk

/-- The registry operations. -/
inductive PlcOp where
  | init (deviceId : String) (connectOk : Bool)
  | close (deviceId : String)
  | restart (deviceId : String) (connectOk : Bool)
  | get (deviceId : String) (connectOk : Bool)

/-- One registry operation. -/
def plcStep (s : PlcState) : PlcOp → PlcState
  | .init d ok => initializeDevice s d ok
  | .close d => closeConnection s d
  | .restart d ok => restartConnection s d ok
  | .get d ok => getClient s d ok

/-- Run a sequence of registry operations from the empty registry. -/
def plcRun (ops : List PlcOp) : PlcState :=
  ops.foldl plcStep ⟨0, [], []⟩

/-- Registry invariant: map keys are unique, and every stored client id was
created earlier than the creation counter. -/
def PlcInv (s : PlcState) : Prop :=
  (s.activeConnections.map Prod.fst).Nodup ∧
  ∀ q ∈ s.activeConnections, q.2 < s.nextClient

theorem lookupDev_mem {l : List (String × ℕ)} {d : String} {c : ℕ}
    (h : lookupDev l d = some c) : (d, c) ∈ l := by
  induction l with
  | nil => cases h
  | cons p t ih =>
      obtain ⟨k, v⟩ := p
      rw [lookupDev] at h
      by_cases hk : k = d
      · rw [if_pos hk] at h
        injection h with hv
        subst hk
        subst hv
        exact List.mem_cons_self _ _
      · rw [if_neg hk] at h
        exact List.mem_cons_of_mem _ (ih h)

theorem lookupDev_none_not_mem {l : List (String × ℕ)} {d : String}
    (h : lookupDev l d = none) : d ∉ l.map Prod.fst := by
  induction l with
  | nil => simp
  | cons p t ih =>
      obtain ⟨k, v⟩ := p
      rw [lookupDev] at h
      by_cases hk : k = d
      · rw [if_pos hk] at h
        cases h
      · rw [if_neg hk] at h
        simp only [List.map_cons, List.mem_cons]
        rintro (rfl | hm)
        · exact hk rfl
        · exact ih h hm

theorem filter_keys_ne {l : List (String × ℕ)} {d : String} :
    ∀ q ∈ l.filter (fun p => p.1 != d), q.1 ≠ d := by
  intro q hq
  have := List.of_mem_filter hq
  simpa using this

theorem PlcInv_close {s : PlcState} {d : String} (h : PlcInv s) :
    PlcInv (closeConnection s d) := by
  rw [closeConnection]
  cases hl : lookupDev s.activeConnections d with
  | none => exact h
  | some c =>
      constructor
      · exact h.1.sublist (List.Sublist.map _ (List.filter_sublist _))
      · intro q hq
        exact h.2 q (List.mem_of_mem_filter hq)

theorem PlcInv_init {s : PlcState} {d : String} {ok : Bool}
    (h : PlcInv s) : PlcInv (initializeDevice s d ok) := by
  rw [initializeDevice]
  set s1 := if (lookupDev s.activeConnections d).isSome
            then closeConnection s d else s with hs1
  have h1 : PlcInv s1 := by
    rw [hs1]
    split
    · exact PlcInv_close h
    · exact h
  have hd : d ∉ s1.activeConnections.map Prod.fst := by
    rw [hs1]
    cases hl : lookupDev s.activeConnections d with
    | none =>
        simp only [hl, Option.isSome_none, Bool.false_eq_true, if_false]
        exact lookupDev_none_not_mem hl
    | some c =>
        simp only [hl, Option.isSome_some, if_true]
        rw [closeConnection, hl]
        simp only [List.mem_map]
        rintro ⟨q, hq, rfl⟩
        exact filter_keys_ne q hq rfl
  cases ok with
  | false =>
      simp only [if_false, Bool.false_eq_true]
      exact ⟨h1.1, fun q hq => Nat.lt_succ_of_lt (h1.2 q hq)⟩
  | true =>
      simp only [if_true]
      refine ⟨List.Nodup.cons hd h1.1, ?_⟩
      intro q hq
      rcases List.mem_cons.mp hq with rfl | hq2
      · exact Nat.lt_succ_self _
      · exact Nat.lt_succ_of_lt (h1.2 q hq2)

theorem PlcInv_step {s : PlcState} (op : PlcOp) (h : PlcInv s) :
    PlcInv (plcStep s op) := by
  cases op with
  | init d ok => exact PlcInv_init h
  | close d => exact PlcInv_close h
  | restart d ok => exact PlcInv_init (PlcInv_close h)
  | get d ok =>
      rw [plcStep, getClient]
      split
      · exact PlcInv_init h
      · split
        · exact h
        · rw [restartConnection]
          exact PlcInv_init (PlcInv_close h)

theorem PlcInv_foldl (ops : List PlcOp) (s : PlcState) (h : PlcInv s) :
    PlcInv (ops.foldl plcStep s) := by
  induction ops generalizing s with
  | nil => exact h
  | cons op t ih => exact ih _ (PlcInv_step op h)

theorem PlcInv_run (ops : List PlcOp) : PlcInv (plcRun ops) := by
  rw [plcRun]
  refine PlcInv_foldl ops _ ⟨by simp, ?_⟩
  intro q hq
  cases hq

theorem clientState_markClosed (cl : List (ℕ × Bool)) (c : ℕ) :
    (clientState (markClosed cl c) c).getD false = false := by
  induction cl with
  | nil => rfl
  | cons p t ih =>
      obtain ⟨i, b⟩ := p
      have hcons : markClosed ((i, b) :: t) c =
          (if i = c then (i, false) else (i, b)) :: markClosed t c := by
        rw [markClosed, List.map_cons]
        rfl
      rw [hcons]
      by_cases hic : i = c
      · rw [if_pos hic, clientState, if_pos hic]
        rfl
      · rw [if_neg hic, clientState, if_neg hic]
        exact ih

theorem lookupDev_filter_ne (l : List (String × ℕ)) (d : String) :
    lookupDev (l.filter (fun p => p.1 != d)) d = none := by
  induction l with
  | nil => rfl
  | cons p t ih =>
      obtain ⟨k, v⟩ := p
      by_cases hk : k = d
      · simpa [List.filter_cons, hk] using ih
      · simpa [List.filter_cons, hk, lookupDev] using ih

/-- With a session stored for the device, `initializeDevice` closes the old
client and replaces the map entry, never keeping the old session. -/
theorem initializeDevice_closes_old {s : PlcState} {d : String} {c : ℕ}
    (hInv : PlcInv s) (hl : lookupDev s.activeConnections d = some c)
    (ok : Bool) :
    isClientOpen (initializeDevice s d ok) c = false ∧
    (∀ c2, lookupDev (initializeDevice s d ok).activeConnections d =
      some c2 → c2 ≠ c) := by
  have hc : c < s.nextClient := hInv.2 _ (lookupDev_mem hl)
  have hae : initializeDevice s d ok =
      (if ok then
        ({ nextClient := s.nextClient + 1
           clients := (s.nextClient, ok) :: markClosed s.clients c
           activeConnections := (d, s.nextClient) ::
             s.activeConnections.filter (fun p => p.1 != d) } : PlcState)
      else
        { nextClient := s.nextClient + 1
          clients := (s.nextClient, ok) :: markClosed s.clients c
          activeConnections :=
            s.activeConnections.filter (fun p => p.1 != d) }) := by
    simp only [initializeDevice, closeConnection, hl, Option.isSome_some,
      if_true]
  have hmc : (clientState ((s.nextClient, ok) :: markClosed s.clients c)
      c).getD false = false := by
    rw [clientState, if_neg (by omega : ¬ s.nextClient = c)]
    exact clientState_markClosed s.clients c
  constructor
  · rw [hae]
    cases ok with
    | false => simpa [isClientOpen] using hmc
    | true => simpa [isClientOpen] using hmc
  · intro c2 h2
    rw [hae] at h2
    cases ok with
    | false =>
        simp only [Bool.false_eq_true, if_false] at h2
        rw [lookupDev_filter_ne] at h2
        cases h2
    | true =>
        simp only [if_true, lookupDev, if_pos rfl] at h2
        injection h2 with h3
        omega

/-- How many map entries carry a given key. -/
theorem filter_key_length {l : List (String × ℕ)}
    (h : (l.map Prod.fst).Nodup) (d : String) :
    (l.filter (fun q => q.1 == d)).length ≤ 1 := by
  induction l with
  | nil => simp
  | cons p t ih =>
      rw [List.map_cons, List.nodup_cons] at h
      by_cases hk : p.1 = d
      · have hnil : t.filter (fun q => q.1 == d) = [] := by
          rw [List.filter_eq_nil_iff]
          intro q hq hqd
          refine absurd ?_ h.1
          rw [List.mem_map]
          refine ⟨q, hq, ?_⟩
          rw [hk]
          exact beq_iff_eq.mp hqd
        simp [List.filter_cons, hk, hnil]
      · simpa [List.filter_cons, hk] using ih h.2

/-- **C4.** Reachable registry states hold at most one session per device
identifier (map keys are unique), and whenever `initializeDevice` runs for
a device that already has a stored session, the old client is closed and
the old session is removed from the map before the new one is installed. -/
theorem connectionRegistry_one_session (ops : List PlcOp) :
    ((plcRun ops).activeConnections.map Prod.fst).Nodup ∧
    (∀ d, ((plcRun ops).activeConnections.filter
      (fun q => q.1 == d)).length ≤ 1) ∧
    (∀ d ok c, lookupDev (plcRun ops).activeConnections d = some c →
      isClientOpen (plcStep (plcRun ops) (.init d ok)) c = false ∧
      ∀ c2, lookupDev (plcStep (plcRun ops) (.init d ok)).activeConnections
        d = some c2 → c2 ≠ c) := by
  have hInv := PlcInv_run ops
  refine ⟨hInv.1, fun d => filter_key_length hInv.1 d, ?_⟩
  intro d ok c hl
  exact initializeDevice_closes_old hInv hl ok

/-- **C4 witness.** After connecting device `dev1`, re-initializing it
closes the first client (id 0) and stores a fresh one. -/
theorem connectionRegistry_one_session_witness :
    isClientOpen (plcStep (plcRun [.init "dev1" true]) (.init "dev1" true))
        0 = false ∧
    ∀ c2, lookupDev (PlcState.activeConnections
        (plcStep (plcRun [.init "dev1" true]) (.init "dev1" true)))
        "dev1" = some c2 → c2 ≠ 0 :=
  (connectionRegistry_one_session [.init "dev1" true]).2.2 "dev1" true 0 rfl

/-! ## Platform-initiated RPC (`MqttBroker.sendRpcRequest`)

After the subscribe and publish callbacks succeed, three pieces of state
remain for a pending request: the promise (settled at most once — a JS
promise ignores late resolve/reject calls), the response-topic
subscription, and the registered per-request message listener, plus the
live timeout.  Time is modelled by the order of events: a response
arriving before the timeout elapses is a `response` event preceding the
`timerFire` event, and vice versa.  A `response` event is deliverable only
while the client is subscribed to the response topic.  `parsePayload`
never throws (it catches JSON errors internally and falls back to the raw
string), so it is modelled as an abstract total function `parse`. -/

/-- How the request promise was settled. -/
inductive RpcOutcome where
  | resolved (payload : String)
  | timedOut
deriving DecidableEq

/-- State of one pending RPC request. -/
structure RpcState where
  settled : Option RpcOutcome
  settleLog : List RpcOutcome
  subscribed : Bool
  timerActive : Bool
  listenerActive : Bool
deriving DecidableEq

/-- Settle the promise; a promise that is already settled is left
untouched (first writer wins). -/
def promiseSettle (s : RpcState) (o : RpcOutcome) : RpcState :=
  match s.settled with
  | some _ => s
  | none => { s with settled := some o, settleLog := s.settleLog ++ [o] }

/-- Events that can reach a pending request. -/
inductive RpcEvent where
  | timerFire
  | response (msg : String)

/-- One event.  The timeout callback unsubscribes and rejects (it does not
remove the message listener); the message handler fires only while the
subscription and the listener are in place, and then clears the timeout,
unsubscribes, removes itself, and resolves with the parsed payload. -/
def rpcStep (parse : String → String) (s : RpcState) : RpcEvent → RpcState
  | .timerFire =>
      if s.timerActive then
        promiseSettle
          { s with subscribed := false, timerActive := false } .timedOut
      else s
  | .response msg =>
      if s.subscribed && s.listenerActive then
        promiseSettle
          { s with
            timerActive := false
            subscribed := false
            listenerActive := false } (.resolved (parse msg))
      else s

/-- Run the pending request through a sequence of events, starting from the
state set up by `sendRpcRequest` (unsettled, subscribed, timer armed,
listener registered). -/
def rpcRun (parse : String → String) (events : List RpcEvent) : RpcState :=
  events.foldl (rpcStep parse) ⟨none, [], true, true, true⟩

/-- Once the timer is gone and the topic unsubscribed, every further event
is a no-op. -/
theorem rpcStep_frozen (parse : String → String) {s : RpcState}
    (h1 : s.timerActive = false) (h2 : s.subscribed = false)
    (e : RpcEvent) : rpcStep parse s e = s := by
  cases e with
  | timerFire => simp [rpcStep, h1]
  | response msg => simp [rpcStep, h2]

theorem rpcRun_frozen (parse : String → String) {s : RpcState}
    (h1 : s.timerActive = false) (h2 : s.subscribed = false)
    (events : List RpcEvent) : events.foldl (rpcStep parse) s = s := by
  induction events with
  | nil => rfl
  | cons e t ih =>
      rw [List.foldl_cons, rpcStep_frozen parse h1 h2 e]
      exact ih

/-- **C3.** If a matching response arrives on the response topic before the
timeout, the request resolves with the parsed payload; if the timeout
fires first, it rejects with the timeout outcome.  In both cases the
response-topic subscription is removed, the promise is settled exactly
once, and every later event (the losing path included) leaves the request
state unchanged. -/
theorem sendRpcRequest_settles_once (parse : String → String) :
    (∀ (msg : String) (rest : List RpcEvent),
      rpcRun parse (.response msg :: rest) =
        ⟨some (.resolved (parse msg)), [.resolved (parse msg)],
          false, false, false⟩) ∧
    (∀ rest : List RpcEvent,
      rpcRun parse (.timerFire :: rest) =
        ⟨some .timedOut, [.timedOut], false, false, true⟩) := by
  constructor
  · intro msg rest
    rw [rpcRun, List.foldl_cons]
    have h1 : rpcStep parse ⟨none, [], true, true, true⟩ (.response msg) =
        ⟨some (.resolved (parse msg)), [.resolved (parse msg)],
          false, false, false⟩ := rfl
    rw [h1]
    exact rpcRun_frozen parse rfl rfl rest
  · intro rest
    rw [rpcRun, List.foldl_cons]
    have h1 : rpcStep parse ⟨none, [], true, true, true⟩ .timerFire =
        ⟨some .timedOut, [.timedOut], false, false, true⟩ := rfl
    rw [h1]
    exact rpcRun_frozen parse rfl rfl rest

/-! ## A small sort used to model the `$sort` pipeline stages -/

/-- Insert into a sorted list, keeping earlier elements first on ties (the
model of a stable sort). -/
def insertLe {α : Type} (le : α → α → Bool) (x : α) : List α → List α
  | [] => [x]
  | y :: ys => if le x y then x :: y :: ys else y :: insertLe le x ys

/-- Insertion sort by the comparator `le`. -/
def sortLe {α : Type} (le : α → α → Bool) : List α → List α
  | [] => []
  | x :: xs => insertLe le x (sortLe le xs)

theorem insertLe_perm {α : Type} (le : α → α → Bool) (x : α) (l : List α) :
    List.Perm (insertLe le x l) (x :: l) := by
  induction l with
  | nil => rfl
  | cons y ys ih =>
      rw [insertLe]
      by_cases h : le x y
      · rw [if_pos h]
      · rw [if_neg h]
        exact (ih.cons y).trans (List.Perm.swap x y ys)

theorem sortLe_perm {α : Type} (le : α → α → Bool) (l : List α) :
    List.Perm (sortLe le l) l := by
  induction l with
  | nil => rfl
  | cons x xs ih =>
      rw [sortLe]
      exact (insertLe_perm le x (sortLe le xs)).trans (ih.cons x)

theorem mem_insertLe {α : Type} {le : α → α → Bool} {x a : α} {l : List α}
    (h : a ∈ insertLe le x l) : a = x ∨ a ∈ l :=
  List.mem_cons.mp ((insertLe_perm le x l).mem_iff.mp h)

theorem insertLe_sorted {α : Type} {le : α → α → Bool}
    (htot : ∀ a b, le a b = true ∨ le b a = true)
    (htrans : ∀ a b c, le a b = true → le b c = true → le a c = true)
    (x : α) {l : List α} (hl : l.Pairwise (fun a b => le a b = true)) :
    (insertLe le x l).Pairwise (fun a b => le a b = true) := by
  induction l with
  | nil => simp [insertLe]
  | cons y ys ih =>
      rw [insertLe]
      rw [List.pairwise_cons] at hl
      by_cases h : le x y
      · rw [if_pos h]
        refine List.Pairwise.cons ?_ (List.Pairwise.cons hl.1 hl.2)
        intro b hb
        rcases List.mem_cons.mp hb with rfl | hb2
        · exact h
        · exact htrans x y b h (hl.1 b hb2)
      · rw [if_neg h]
        have hyx : le y x = true := by
          rcases htot x y with h1 | h1
          · exact absurd h1 h
          · exact h1
        refine List.Pairwise.cons ?_ (ih hl.2)
        intro b hb
        rcases mem_insertLe hb with rfl | hb2
        · exact hyx
        · exact hl.1 b hb2

theorem sortLe_sorted {α : Type} {le : α → α → Bool}
    (htot : ∀ a b, le a b = true ∨ le b a = true)
    (htrans : ∀ a b c, le a b = true → le b c = true → le a c = true)
    (l : List α) :
    (sortLe le l).Pairwise (fun a b => le a b = true) := by
  induction l with
  | nil => exact List.Pairwise.nil
  | cons x xs ih =>
      rw [sortLe]
      exact insertLe_sorted htot htrans x ih

/-- In a list sorted descending by `key`, `find?` returns an element whose
key is maximal among the matching elements. -/
theorem find?_max_of_sorted {α : Type} (key : α → ℕ) (p : α → Bool)
    {l : List α} (hl : l.Pairwise (fun a b => key b ≤ key a)) {r : α}
    (hf : l.find? p = some r) :
    ∀ x ∈ l, p x = true → key x ≤ key r := by
  induction l with
  | nil => cases hf
  | cons a t ih =>
      rw [List.pairwise_cons] at hl
      rw [List.find?] at hf
      intro x hx hpx
      cases hpa : p a with
      | true =>
          rw [hpa] at hf
          injection hf with hra
          subst hra
          rcases List.mem_cons.mp hx with rfl | hx2
          · exact le_refl _
          · exact hl.1 x hx2
      | false =>
          rw [hpa] at hf
          rcases List.mem_cons.mp hx with rfl | hx2
          · rw [hpx] at hpa
            cases hpa
          · exact ih hl.2 hf x hx2 hpx

/-! ## Latest telemetry (`telemetrySchema.statics.getLatestByDevice`)

The pipeline `$match` → `$sort {timestamp: -1}` → `$group by type, $first`
→ `$project` over the stored rows, modelled over the same row type the
ingestion pipeline persists.  MongoDB leaves the emission order of groups
unspecified; the group keys are enumerated here in `dedup` order of the
sorted rows, which is one legal order. -/

/-- The `$match` stage: device id plus the optional `$in` filter on types
(applied only when a non-empty type list is supplied). -/
def matchesQuery (deviceId : String) (types : Option (List String))
    (r : SavedTelemetry) : Bool :=
  r.deviceId == deviceId &&
    match types with
    | none => true
    | some ts => if 0 < ts.length then ts.contains r.type else true

/-- One output entry of `getLatestByDevice`. -/
structure LatestEntry where
  type : String
  timestamp : ℕ
  value : ℚ
deriving DecidableEq

/-- The `$match` and `$sort {timestamp: -1}` stages. -/
def latestSorted (rows : List SavedTelemetry) (deviceId : String)
    (types : Option (List String)) : List SavedTelemetry :=
  sortLe (fun a b => decide (b.timestamp ≤ a.timestamp))
    (rows.filter (matchesQuery deviceId types))

/-- `getLatestByDevice(deviceId, types)`: sort matching rows by timestamp
descending, group by type, and keep the first (latest) row per type. -/
def getLatestByDevice (rows : List SavedTelemetry) (deviceId : String)
    (types : Option (List String)) : List LatestEntry :=
  (((latestSorted rows deviceId types).map (fun r => r.type)).dedup).filterMap
    (fun k => ((latestSorted rows deviceId types).find?
        (fun r => r.type == k)).map
      (fun r => ⟨r.type, r.timestamp, r.value⟩))

/-- **C5.** For every device, type filter and key, each entry returned by
`getLatestByDevice` for that key is one of the stored readings of that key
and carries the maximum timestamp among them, for every storage order of
the rows (in particular when a later-timestamped reading was persisted
before an earlier-timestamped one); and a key with at least one stored
reading always gets an entry. -/
theorem getLatest_max_timestamp (rows : List SavedTelemetry)
    (deviceId : String) (types : Option (List String)) (k : String) :
    (∀ e ∈ getLatestByDevice rows deviceId types, e.type = k →
      (∃ r ∈ rows, matchesQuery deviceId types r = true ∧ r.type = k ∧
        r.timestamp = e.timestamp ∧ r.value = e.value) ∧
      (∀ r2 ∈ rows, matchesQuery deviceId types r2 = true → r2.type = k →
        r2.timestamp ≤ e.timestamp)) ∧
    ((∃ r ∈ rows, matchesQuery deviceId types r = true ∧ r.type = k) →
      ∃ e ∈ getLatestByDevice rows deviceId types, e.type = k) := by
  have hsortedPw : (latestSorted rows deviceId types).Pairwise
      (fun a b => b.timestamp ≤ a.timestamp) := by
    refine List.Pairwise.imp (fun h => of_decide_eq_true h) ?_
    refine sortLe_sorted ?_ ?_ _
    · intro a b
      rcases Nat.le_total b.timestamp a.timestamp with h | h
      · exact Or.inl (decide_eq_true h)
      · exact Or.inr (decide_eq_true h)
    · intro a b c h1 h2
      exact decide_eq_true
        (Nat.le_trans (of_decide_eq_true h2) (of_decide_eq_true h1))
  have hperm : List.Perm (latestSorted rows deviceId types)
      (rows.filter (matchesQuery deviceId types)) :=
    sortLe_perm _ _
  constructor
  · intro e he hek
    rw [getLatestByDevice] at he
    obtain ⟨k0, hk0, hfk0⟩ := List.mem_filterMap.mp he
    obtain ⟨r, hfind, hre⟩ := Option.map_eq_some'.mp hfk0
    subst hre
    have hbeq := List.find?_some hfind
    have hrtype : r.type = k0 := eq_of_beq hbeq
    have hrk : r.type = k := hek
    have hrs : r ∈ latestSorted rows deviceId types :=
      List.mem_of_find?_eq_some hfind
    have hrrows := List.mem_filter.mp (hperm.mem_iff.mp hrs)
    refine ⟨⟨r, hrrows.1, hrrows.2, hrk, rfl, rfl⟩, ?_⟩
    intro r2 hr2 hm2 hk2
    have hr2s : r2 ∈ latestSorted rows deviceId types :=
      hperm.mem_iff.mpr (List.mem_filter.mpr ⟨hr2, hm2⟩)
    have hp2 : (fun r => r.type == k0) r2 = true := by
      refine beq_iff_eq.mpr ?_
      rw [hk2, ← hrk]
      exact hrtype
    exact find?_max_of_sorted (fun r => r.timestamp)
      (fun r => r.type == k0) hsortedPw hfind r2 hr2s hp2
  · rintro ⟨r, hr, hm, hk⟩
    have hrs : r ∈ latestSorted rows deviceId types :=
      hperm.mem_iff.mpr (List.mem_filter.mpr ⟨hr, hm⟩)
    have hkmem : k ∈
        ((latestSorted rows deviceId types).map (fun r => r.type)).dedup := by
      rw [List.mem_dedup]
      exact List.mem_map.mpr ⟨r, hrs, hk⟩
    have hpsome : ((latestSorted rows deviceId types).find?
        (fun r => r.type == k)).isSome := by
      rw [List.find?_isSome]
      exact ⟨r, hrs, beq_iff_eq.mpr hk⟩
    obtain ⟨r0, hr0⟩ := Option.isSome_iff_exists.mp hpsome
    refine ⟨⟨r0.type, r0.timestamp, r0.value⟩, ?_, ?_⟩
    · rw [getLatestByDevice]
      refine List.mem_filterMap.mpr ⟨k, hkmem, ?_⟩
      rw [hr0]
      rfl
    · have hbeq0 := List.find?_some hr0
      exact eq_of_beq hbeq0

/-- **C5 witness.** Two readings for the same key where the
later-timestamped one (timestamp 100) is persisted before the
earlier-timestamped one (timestamp 50): the returned entry carries
timestamp 100, the maximum. -/
theorem getLatest_max_timestamp_witness :
    (∃ r ∈ [(⟨"d", "k", 1, 100⟩ : SavedTelemetry), ⟨"d", "k", 2, 50⟩],
      matchesQuery "d" none r = true ∧ r.type = "k" ∧
      r.timestamp = (⟨"k", 100, 1⟩ : LatestEntry).timestamp ∧
      r.value = (⟨"k", 100, 1⟩ : LatestEntry).value) ∧
    (∀ r2 ∈ [(⟨"d", "k", 1, 100⟩ : SavedTelemetry), ⟨"d", "k", 2, 50⟩],
      matchesQuery "d" none r2 = true → r2.type = "k" →
      r2.timestamp ≤ (⟨"k", 100, 1⟩ : LatestEntry).timestamp) :=
  (getLatest_max_timestamp [⟨"d", "k", 1, 100⟩, ⟨"d", "k", 2, 50⟩]
      "d" none "k").1 ⟨"k", 100, 1⟩ (by decide) rfl

/-! ## Aggregation engine (`TelemetryService.aggregateData`)

The pipeline `$match` → `$group by calendar components` → `$sort on _id` →
`$project {timestamp: $dateFromParts, value, count}` is modelled as a list
transformation.  Calendar timestamps are records of their components; a
timestamp coming from a real `Date` has its components in range
(`CalTime.valid`).  The MongoDB `$week` builtin additionally depends on the
weekday of January 1st of the year; it is modelled here as the zero-based
day-of-year divided by 7, which is deterministic and calendar-derived in
the same way — no property proved below depends on the exact week
numbers. -/

/-- A calendar timestamp, by components. -/
structure CalTime where
  year : ℕ
  month : ℕ
  day : ℕ
  hour : ℕ
  minute : ℕ
deriving DecidableEq

/-- Components of a real date are in range. -/
def CalTime.valid (t : CalTime) : Prop :=
  1 ≤ t.month ∧ t.month ≤ 12 ∧ 1 ≤ t.day ∧ t.day ≤ 31 ∧
    t.hour ≤ 23 ∧ t.minute ≤ 59

instance (t : CalTime) : Decidable t.valid := by
  rw [CalTime.valid]
  infer_instance

/-- Zero-based day of the year (non-leap month lengths). -/
def dayOfYearIdx (month day : ℕ) : ℕ :=
  (List.take (month - 1)
    [31, 28, 31, 30, 31, 30, 31, 31, 30, 31, 30, 31]).sum + (day - 1)

/-- Model of Mongo `$week` (see the section comment). -/
def weekOfYear (t : CalTime) : ℕ := dayOfYearIdx t.month t.day / 7

/-- Linearisation of a calendar timestamp, used as the time order of the
range filter; for in-range components it agrees with chronological
order. -/
def CalTime.toMinutes (t : CalTime) : ℕ :=
  (((t.year * 12 + t.month) * 31 + t.day) * 24 + t.hour) * 60 + t.minute

/-- One stored telemetry document as seen by the aggregation pipeline. -/
structure AggRow where
  deviceId : String
  type : String
  value : ℚ
  timestamp : CalTime
deriving DecidableEq

/-- The `$group._id` document; fields absent for a granularity are
`none`. -/
structure BucketKey where
  year : ℕ
  month : Option ℕ
  day : Option ℕ
  hour : Option ℕ
  week : Option ℕ
deriving DecidableEq

/-- The `timeGroup` switch of `aggregateData`: which calendar components
form the bucket key; unknown windows fall back to hourly grouping. -/
def timeGroup (timeWindow : String) (t : CalTime) : BucketKey :=
  if timeWindow = "hour" then
    ⟨t.year, some t.month, some t.day, some t.hour, none⟩
  else if timeWindow = "day" then
    ⟨t.year, some t.month, some t.day, none, none⟩
  else if timeWindow = "week" then
    ⟨t.year, none, none, none, some (weekOfYear t)⟩
  else if timeWindow = "month" then
    ⟨t.year, some t.month, none, none, none⟩
  else ⟨t.year, some t.month, some t.day, some t.hour, none⟩

/-- Mongo sorts a missing field before every number. -/
def optRank : Option ℕ → ℕ
  | none => 0
  | some n => n + 1

/-- The `$sort` comparison on
`_id.year, _id.month, _id.day, _id.hour, _id.week`, all ascending. -/
def keyLe (a b : BucketKey) : Bool :=
  decide (a.year < b.year) ||
  (a.year == b.year && (decide (optRank a.month < optRank b.month) ||
    (optRank a.month == optRank b.month &&
      (decide (optRank a.day < optRank b.day) ||
        (optRank a.day == optRank b.day &&
          (decide (optRank a.hour < optRank b.hour) ||
            (optRank a.hour == optRank b.hour &&
              decide (optRank a.week ≤ optRank b.week))))))))

/-- The `$match` stage: device, type, and optional time range. -/
def aggMatch (deviceId ty : String) (startTime endTime : Option CalTime)
    (r : AggRow) : Bool :=
  r.deviceId == deviceId && r.type == ty &&
    (match startTime with
     | none => true
     | some s => decide (s.toMinutes ≤ r.timestamp.toMinutes)) &&
    (match endTime with
     | none => true
     | some e => decide (r.timestamp.toMinutes ≤ e.toMinutes))

/-- Smallest element of a list of values (`$min`). -/
def qMin : List ℚ → ℚ
  | [] => 0
  | [x] => x
  | x :: y :: t => min x (qMin (y :: t))

/-- Largest element of a list of values (`$max`). -/
def qMax : List ℚ → ℚ
  | [] => 0
  | [x] => x
  | x :: y :: t => max x (qMax (y :: t))

/-- The aggregation operator switch (`$avg`/`$min`/`$max`/`$sum`, defaulting
to `$avg`); values are already numeric in this model, so `$toDouble` is the
identity. -/
def aggBucketValue (aggregation : String) (vs : List ℚ) : ℚ :=
  match aggregation with
  | "avg" => vs.sum / vs.length
  | "min" => qMin vs
  | "max" => qMax vs
  | "sum" => vs.sum
  | _ => vs.sum / vs.length

/-- `$dateFromParts` of the `$project` stage: absent month and day default
to 1, absent hour to 0 (the week field is not used). -/
def dateFromParts (k : BucketKey) : CalTime :=
  ⟨k.year, k.month.getD 1, k.day.getD 1, k.hour.getD 0, 0⟩

/-- One output bucket. -/
structure AggBucket where
  timestamp : CalTime
  value : ℚ
  count : ℕ
deriving DecidableEq

/-- `aggregateData(deviceId, type, aggregation, timeWindow, startTime,
endTime)`: filter, group by the calendar bucket key, sort the groups by
`_id`, and project each group to its bucket start, aggregated value and
sample count. -/
def aggregateData (rows : List AggRow)
    (deviceId ty aggregation timeWindow : String)
    (startTime endTime : Option CalTime) : List AggBucket :=
  let matched := rows.filter (aggMatch deviceId ty startTime endTime)
  let keys := sortLe keyLe
    ((matched.map (fun r => timeGroup timeWindow r.timestamp)).dedup)
  keys.map (fun k =>
    let members := matched.filter
      (fun r => timeGroup timeWindow r.timestamp == k)
    ⟨dateFromParts k,
      aggBucketValue aggregation (members.map (fun r => r.value)),
      members.length⟩)

theorem keyLe_total (a b : BucketKey) :
    keyLe a b = true ∨ keyLe b a = true := by
  simp only [keyLe, Bool.or_eq_true, Bool.and_eq_true, decide_eq_true_eq,
    beq_iff_eq]
  omega

theorem keyLe_trans (a b c : BucketKey) (h1 : keyLe a b = true)
    (h2 : keyLe b c = true) : keyLe a c = true := by
  simp only [keyLe, Bool.or_eq_true, Bool.and_eq_true, decide_eq_true_eq,
    beq_iff_eq] at h1 h2 ⊢
  omega

/-- An unknown time window groups like the hourly window. -/
theorem timeGroup_default {w : String}
    (hw : w ∉ (["hour", "day", "week", "month"] : List String))
    (t : CalTime) :
    timeGroup w t = ⟨t.year, some t.month, some t.day, some t.hour, none⟩ := by
  simp only [List.mem_cons, List.not_mem_nil, or_false, not_or] at hw
  rw [timeGroup, if_neg hw.1, if_neg hw.2.1, if_neg hw.2.2.1,
    if_neg hw.2.2.2]

/-- For two valid timestamps grouped at the same granularity, the `$sort`
order on the bucket keys implies the order of the projected bucket
starts. -/
theorem timeGroup_start_mono (w : String) {t1 t2 : CalTime}
    (h1 : t1.valid) (h2 : t2.valid)
    (h : keyLe (timeGroup w t1) (timeGroup w t2) = true) :
    (dateFromParts (timeGroup w t1)).toMinutes ≤
      (dateFromParts (timeGroup w t2)).toMinutes := by
  obtain ⟨hm1, hm1b, hd1, hd1b, hh1, hmin1⟩ := h1
  obtain ⟨hm2, hm2b, hd2, hd2b, hh2, hmin2⟩ := h2
  by_cases hw : w ∈ (["hour", "day", "week", "month"] : List String)
  · fin_cases hw
    · simp only [show ∀ t : CalTime, timeGroup "hour" t =
          ⟨t.year, some t.month, some t.day, some t.hour, none⟩
          from fun t => rfl] at h ⊢
      simp only [keyLe, Bool.or_eq_true, Bool.and_eq_true,
        decide_eq_true_eq, beq_iff_eq, optRank, dateFromParts,
        CalTime.toMinutes, Option.getD_some] at h ⊢
      omega
    · simp only [show ∀ t : CalTime, timeGroup "day" t =
          ⟨t.year, some t.month, some t.day, none, none⟩
          from fun t => rfl] at h ⊢
      simp only [keyLe, Bool.or_eq_true, Bool.and_eq_true,
        decide_eq_true_eq, beq_iff_eq, optRank, dateFromParts,
        CalTime.toMinutes, Option.getD_some, Option.getD_none] at h ⊢
      omega
    · simp only [show ∀ t : CalTime, timeGroup "week" t =
          ⟨t.year, none, none, none, some (weekOfYear t)⟩
          from fun t => rfl] at h ⊢
      simp only [keyLe, Bool.or_eq_true, Bool.and_eq_true,
        decide_eq_true_eq, beq_iff_eq, optRank, dateFromParts,
        CalTime.toMinutes, Option.getD_some, Option.getD_none] at h ⊢
      omega
    · simp only [show ∀ t : CalTime, timeGroup "month" t =
          ⟨t.year, some t.month, none, none, none⟩
          from fun t => rfl] at h ⊢
      simp only [keyLe, Bool.or_eq_true, Bool.and_eq_true,
        decide_eq_true_eq, beq_iff_eq, optRank, dateFromParts,
        CalTime.toMinutes, Option.getD_some, Option.getD_none] at h ⊢
      omega
  · rw [timeGroup_default hw, timeGroup_default hw] at h ⊢
    simp only [keyLe, Bool.or_eq_true, Bool.and_eq_true,
      decide_eq_true_eq, beq_iff_eq, optRank, dateFromParts,
      CalTime.toMinutes, Option.getD_some] at h ⊢
    omega

/-- **C6.** For every aggregation query over rows whose timestamps are real
calendar dates, the output buckets are sorted ascending by bucket start
(derived from calendar components via `$dateFromParts`), there is exactly
one bucket per distinct calendar key among the matching samples, every
bucket contains at least one sample, and each bucket start is the
calendar-derived boundary of one of its samples.  `aggregateData` is a pure
function of the stored rows and the query, so two runs over the same data
and range produce identical buckets. -/
theorem aggregateData_deterministic_buckets (rows : List AggRow)
    (deviceId ty aggregation timeWindow : String)
    (startTime endTime : Option CalTime)
    (hvalid : ∀ r ∈ rows, r.timestamp.valid) :
    (aggregateData rows deviceId ty aggregation timeWindow startTime
        endTime).Pairwise
      (fun b1 b2 => b1.timestamp.toMinutes ≤ b2.timestamp.toMinutes) ∧
    (aggregateData rows deviceId ty aggregation timeWindow startTime
        endTime).length =
      ((rows.filter (aggMatch deviceId ty startTime endTime)).map
        (fun r => timeGroup timeWindow r.timestamp)).dedup.length ∧
    (∀ b ∈ aggregateData rows deviceId ty aggregation timeWindow startTime
        endTime, 1 ≤ b.count) ∧
    (∀ b ∈ aggregateData rows deviceId ty aggregation timeWindow startTime
        endTime, ∃ r ∈ rows.filter (aggMatch deviceId ty startTime endTime),
      b.timestamp = dateFromParts (timeGroup timeWindow r.timestamp)) := by
  have hperm : List.Perm
      (sortLe keyLe
        (((rows.filter (aggMatch deviceId ty startTime endTime)).map
          (fun r => timeGroup timeWindow r.timestamp)).dedup))
      (((rows.filter (aggMatch deviceId ty startTime endTime)).map
        (fun r => timeGroup timeWindow r.timestamp)).dedup) :=
    sortLe_perm _ _
  have hsorted := sortLe_sorted keyLe_total keyLe_trans
    (((rows.filter (aggMatch deviceId ty startTime endTime)).map
      (fun r => timeGroup timeWindow r.timestamp)).dedup)
  have hkey : ∀ k ∈ sortLe keyLe
      (((rows.filter (aggMatch deviceId ty startTime endTime)).map
        (fun r => timeGroup timeWindow r.timestamp)).dedup),
      ∃ r ∈ rows.filter (aggMatch deviceId ty startTime endTime),
        timeGroup timeWindow r.timestamp = k := by
    intro k hk
    have hk2 := List.mem_dedup.mp (hperm.mem_iff.mp hk)
    obtain ⟨r, hr, hrk⟩ := List.mem_map.mp hk2
    exact ⟨r, hr, hrk⟩
  refine ⟨?_, ?_, ?_, ?_⟩
  · simp only [aggregateData]
    rw [List.pairwise_map]
    refine List.Pairwise.imp_of_mem ?_ hsorted
    intro k1 k2 hk1 hk2 hle
    obtain ⟨r1, hr1, hrk1⟩ := hkey k1 hk1
    obtain ⟨r2, hr2, hrk2⟩ := hkey k2 hk2
    have hv1 : r1.timestamp.valid := hvalid r1 (List.mem_of_mem_filter hr1)
    have hv2 : r2.timestamp.valid := hvalid r2 (List.mem_of_mem_filter hr2)
    subst hrk1
    subst hrk2
    exact timeGroup_start_mono timeWindow hv1 hv2 hle
  · simp only [aggregateData, List.length_map]
    exact hperm.length_eq
  · intro b hb
    simp only [aggregateData, List.mem_map] at hb
    obtain ⟨k, hk, hbk⟩ := hb
    obtain ⟨r, hr, hrk⟩ := hkey k hk
    have hrmem : r ∈ (rows.filter
        (aggMatch deviceId ty startTime endTime)).filter
        (fun r => timeGroup timeWindow r.timestamp == k) :=
      List.mem_filter.mpr ⟨hr, beq_iff_eq.mpr hrk⟩
    have hpos := List.length_pos_of_mem hrmem
    rw [← hbk]
    exact hpos
  · intro b hb
    simp only [aggregateData, List.mem_map] at hb
    obtain ⟨k, hk, hbk⟩ := hb
    obtain ⟨r, hr, hrk⟩ := hkey k hk
    refine ⟨r, hr, ?_⟩
    rw [← hbk, hrk]

/-- **C6 witness.** The bucket properties instantiated on two readings in
consecutive hours of 2024-05-10, aggregated hourly. -/
theorem aggregateData_deterministic_buckets_witness :
    (aggregateData [⟨"d", "temp", 1, ⟨2024, 5, 10, 3, 0⟩⟩,
        ⟨"d", "temp", 2, ⟨2024, 5, 10, 4, 30⟩⟩] "d" "temp" "avg" "hour"
        none none).Pairwise
      (fun b1 b2 => b1.timestamp.toMinutes ≤ b2.timestamp.toMinutes) ∧
    (aggregateData [⟨"d", "temp", 1, ⟨2024, 5, 10, 3, 0⟩⟩,
        ⟨"d", "temp", 2, ⟨2024, 5, 10, 4, 30⟩⟩] "d" "temp" "avg" "hour"
        none none).length =
      (([(⟨"d", "temp", 1, ⟨2024, 5, 10, 3, 0⟩⟩ : AggRow),
        ⟨"d", "temp", 2, ⟨2024, 5, 10, 4, 30⟩⟩].filter
          (aggMatch "d" "temp" none none)).map
        (fun r => timeGroup "hour" r.timestamp)).dedup.length ∧
    (∀ b ∈ aggregateData [⟨"d", "temp", 1, ⟨2024, 5, 10, 3, 0⟩⟩,
        ⟨"d", "temp", 2, ⟨2024, 5, 10, 4, 30⟩⟩] "d" "temp" "avg" "hour"
        none none, 1 ≤ b.count) ∧
    (∀ b ∈ aggregateData [⟨"d", "temp", 1, ⟨2024, 5, 10, 3, 0⟩⟩,
        ⟨"d", "temp", 2, ⟨2024, 5, 10, 4, 30⟩⟩] "d" "temp" "avg" "hour"
        none none,
      ∃ r ∈ [(⟨"d", "temp", 1, ⟨2024, 5, 10, 3, 0⟩⟩ : AggRow),
        ⟨"d", "temp", 2, ⟨2024, 5, 10, 4, 30⟩⟩].filter
          (aggMatch "d" "temp" none none),
      b.timestamp = dateFromParts (timeGroup "hour" r.timestamp)) :=
  aggregateData_deterministic_buckets
    [⟨"d", "temp", 1, ⟨2024, 5, 10, 3, 0⟩⟩,
      ⟨"d", "temp", 2, ⟨2024, 5, 10, 4, 30⟩⟩]
    "d" "temp" "avg" "hour" none none (by decide)

end DeltaWeb
